import Mathlib

/-!
# Verification of the bounded worker-pool task scheduler
  (src/lesson-01/advanced/Task.go)

Shallow embedding of the Go source.  Time is modelled in abstract
milliseconds (`Nat`).  Go's `error` results become `Option Err`
(`none` = `nil` = success).  The concurrency of `Run`/`worker` is
modelled as a small-step interleaved transition system; goroutine
scheduling and the firing of the global `context.WithTimeout` deadline
are nondeterministic interleavings of the `Step` relation.
-/

namespace TaskSched

/-- The two error shapes the source can produce (`fmt.Errorf` calls at
Task.go:52 and Task.go:82).  `simpleTimeout id` is the error
`"任务 <id> 超时: ..."` returned by `SimpleTask.Execute` when its derived
deadline fires; `longCancelled id step` is `"任务 <id> 在第 <step> 步被取消: ..."`
returned by `LongRunningTask.Execute` at loop index `step`. -/
inductive Err where
  | simpleTimeout (id : String)
  | longCancelled (id : String) (step : Nat)
deriving DecidableEq

/-- A Go `error` value: `none` is `nil` (success). -/
abbrev Outcome := Option Err

/-- The two kinds of timing-related outcome the spec's taxonomy names
(`TaskTimeout` vs `TaskCancelled`). -/
inductive ErrKind where
  | timeout
  | cancelled
deriving DecidableEq

/-- Which taxonomy kind an error value belongs to, read off its shape. -/
def Err.kind : Err → ErrKind
  | .simpleTimeout _ => .timeout
  | .longCancelled _ _ => .cancelled

/-- `SimpleTask` (Task.go:18-21): identifier and own timeout (ms). -/
structure SimpleTask where
  id : String
  timeoutMs : Nat
deriving DecidableEq

/-- `LongRunningTask` (Task.go:63-67): identifier, step count, own timeout (ms). -/
structure LongRunningTask where
  id : String
  count : Nat
  timeoutMs : Nat
deriving DecidableEq

/-- The `Task` interface (Task.go:12-15); the program has exactly the two
implementations, so the interface is a sum. -/
inductive Task where
  | simple (t : SimpleTask)
  | long (t : LongRunningTask)
deriving DecidableEq

/-- `GetID` (Task.go:58-60 and Task.go:94-96). -/
def Task.getID : Task → String
  | .simple t => t.id
  | .long t => t.id

/-!
## SimpleTask.Execute (Task.go:27-56)

`Execute(ctx)` derives `taskCtx = WithTimeout(ctx, t.Timeout)`, so the
effective deadline is `min t.timeoutMs globalRemMs`, where `globalRemMs`
is the time remaining on the caller's context at the start of the call.
A goroutine sleeps a simulated `durationMs` (the source draws
`rand.Intn(100)+300`, i.e. 300–399 ms) and then sends `nil` if the
deadline has not yet fired; the main `select` races `taskCtx.Done()`
against that channel.  If the deadline is strictly sooner than the
duration the timeout branch wins and the wrapped timeout error is
returned; if the duration is strictly sooner, `nil` is returned.  At an
exact tie the two `select` cases race; we resolve the tie to the timeout
branch (either racing branch returns a non-nil timing error, so no claim
below depends on the tie). -/
def SimpleTask.execute (t : SimpleTask) (globalRemMs durationMs : Nat) : Outcome :=
  if min t.timeoutMs globalRemMs < durationMs then some (.simpleTimeout t.id)
  else if durationMs < min t.timeoutMs globalRemMs then none
  else some (.simpleTimeout t.id)

/-!
## LongRunningTask.Execute (Task.go:73-92)

The loop checks `taskCtx.Done()` before each of the `count` steps and
sleeps 100 ms per step.  We abstract the combined (own-timeout ∪ global)
cancellation signal as `fired : Nat → Bool`: `fired i` is whether
`taskCtx.Done()` is ready at the check preceding step `i` (after `i`
completed steps).  `longExecSteps` mirrors the loop with `done` = the
loop index `i` so far and `remaining` = `count - i` steps left. -/
def longExecSteps (id : String) (fired : Nat → Bool) : Nat → Nat → Outcome
  | _, 0 => none
  | done, remaining + 1 =>
    if fired done then some (.longCancelled id done)
    else longExecSteps id fired (done + 1) remaining

def LongRunningTask.execute (t : LongRunningTask) (fired : Nat → Bool) : Outcome :=
  longExecSteps t.id fired 0 t.count

/-- The concrete timing instantiation of the cancellation signal: the
check before step `i` happens `100*i` ms into the call, and
`taskCtx`'s deadline is `min t.timeoutMs globalRemMs`; the deadline has
fired by that check iff it is at most `100*i` (a timer fires at its
duration). -/
def LongRunningTask.firedAt (t : LongRunningTask) (globalRemMs i : Nat) : Bool :=
  decide (min t.timeoutMs globalRemMs ≤ 100 * i)

/-- The outcomes each `Execute` implementation can return: `nil`, or the
single error shape of its variant (with a loop index below the declared
count for the long variant).  Used to constrain the scheduler model's
execution-finish step. -/
def ExecOutcome : Task → Outcome → Prop
  | .simple t, out => out = none ∨ out = some (.simpleTimeout t.id)
  | .long t, out => out = none ∨ ∃ i, i < t.count ∧ out = some (.longCancelled t.id i)

/-!
## The results map (Task.go:103, written at Task.go:160-162)

Go's `map[string]error` is modelled as an association list with
no duplicate keys; `s.results[task.GetID()] = err` is `insertResult`,
which overwrites an existing entry for the key or appends a new one.
-/

def insertResult (k : String) (v : Outcome) : List (String × Outcome) → List (String × Outcome)
  | [] => [(k, v)]
  | (k', v') :: rest =>
    if k' = k then (k, v) :: rest else (k', v') :: insertResult k v rest

/-- Map lookup, `m[k]` with its present/absent flag. -/
def lookupResult (k : String) : List (String × Outcome) → Option Outcome
  | [] => none
  | (k', v') :: rest => if k' = k then some v' else lookupResult k rest

/-- The key set of the map. -/
def keys (m : List (String × Outcome)) : List String := m.map Prod.fst

/-- Folding a record log into the map, oldest first: the map the workers
have built after the writes in `log` have happened in that order. -/
def foldIns (m : List (String × Outcome)) (log : List (String × Outcome)) :
    List (String × Outcome) :=
  log.foldl (fun acc p => insertResult p.1 p.2 acc) m

/-- The last write to key `k` in a record log, if any (`none` when `k`
was never written). -/
def lastWrite (k : String) (log : List (String × Outcome)) : Option Outcome :=
  (log.reverse.find? (fun p => p.1 == k)).map Prod.snd

/-!
## TaskScheduler (Task.go:99-171)

The struct holds the task list, the results map, the global timeout and
the worker count (Task.go:99-106).  `workerCount` is a Go `int`, so it
may be zero or negative; `Run`'s spawn loop `for i := 0; i < workerCount`
then starts `max workerCount 0` workers.
-/

structure TaskScheduler where
  tasks : List Task
  results : List (String × Outcome)
  timeoutMs : Nat
  workerCount : Int
deriving DecidableEq

/-- `NewTaskScheduler` (Task.go:108-115): stores the arguments unchanged,
empty task list and results map.  There is no validation and no error
return. -/
def NewTaskScheduler (workerCount : Int) (timeoutMs : Nat) : TaskScheduler :=
  { tasks := [], results := [], timeoutMs := timeoutMs, workerCount := workerCount }

/-- `AddTask` (Task.go:117-121): appends under the mutex. -/
def TaskScheduler.addTask (s : TaskScheduler) (t : Task) : TaskScheduler :=
  { s with tasks := s.tasks ++ [t] }

/-- A worker goroutine's status: `idle` = in the `for range taskChan`
loop, about to receive; `busy t` = inside `task.Execute(ctx)` for `t`;
`done` = returned (its deferred `wg.Done()` has run). -/
inductive WStatus where
  | idle
  | busy (t : Task)
  | done
deriving DecidableEq

/-- The shared state of one `Run` invocation (Task.go:123-171).
`queue` is the buffered channel's remaining contents (it is seeded with
all tasks and closed before workers start); `fired` is whether the
global `context.WithTimeout` deadline has fired; `wg` is the WaitGroup
counter; `results` is the shared map.  `execLog`, `dropped` and `recLog`
are ghost history variables, not present in the Go code: `execLog` lists
the tasks whose `Execute` call has finished (in finish order), `dropped`
lists tasks a worker received but abandoned because it observed
`ctx.Done()`, and `recLog` lists the `results[id] = err` writes in the
order they were performed. -/
structure SchedState where
  queue : List Task
  fired : Bool
  workers : List WStatus
  wg : Nat
  results : List (String × Outcome)
  execLog : List Task
  dropped : List Task
  recLog : List (String × Outcome)
deriving DecidableEq

/-- Interleaved small-step semantics of `Run`'s worker pool
(Task.go:146-171).  One constructor per atomic event:
* `fire` — the global deadline elapses (can interleave anywhere, once);
* `recvClosed` — a worker's `for range` receive finds the channel closed
  and empty, so the loop ends and the worker returns (Task.go:149/171);
* `recvFired` — a worker receives a task but the `select` sees
  `ctx.Done()` ready, so it returns without executing (Task.go:150-154);
  with a `default` branch Go's `select` takes a ready case, so this is
  the only behaviour once the deadline has fired;
* `execStart` — the deadline has not fired at the `select`, so the
  `default` branch runs and `task.Execute(ctx)` begins (Task.go:155-158);
* `execFinish` — the `Execute` call returns `out` (any outcome that
  variant can produce) and the worker records it under the mutex
  (Task.go:158-162), then loops. -/
inductive Step : SchedState → SchedState → Prop where
  | fire (q : List Task) (ws : List WStatus) (wg : Nat)
      (res : List (String × Outcome)) (log dr : List Task)
      (rl : List (String × Outcome)) :
      Step ⟨q, false, ws, wg, res, log, dr, rl⟩
           ⟨q, true, ws, wg, res, log, dr, rl⟩
  | recvClosed (f : Bool) (w₁ w₂ : List WStatus) (wg : Nat)
      (res : List (String × Outcome)) (log dr : List Task)
      (rl : List (String × Outcome)) :
      Step ⟨[], f, w₁ ++ WStatus.idle :: w₂, wg, res, log, dr, rl⟩
           ⟨[], f, w₁ ++ WStatus.done :: w₂, wg - 1, res, log, dr, rl⟩
  | recvFired (t : Task) (q : List Task) (w₁ w₂ : List WStatus) (wg : Nat)
      (res : List (String × Outcome)) (log dr : List Task)
      (rl : List (String × Outcome)) :
      Step ⟨t :: q, true, w₁ ++ WStatus.idle :: w₂, wg, res, log, dr, rl⟩
           ⟨q, true, w₁ ++ WStatus.done :: w₂, wg - 1, res, log, dr ++ [t], rl⟩
  | execStart (t : Task) (q : List Task) (w₁ w₂ : List WStatus) (wg : Nat)
      (res : List (String × Outcome)) (log dr : List Task)
      (rl : List (String × Outcome)) :
      Step ⟨t :: q, false, w₁ ++ WStatus.idle :: w₂, wg, res, log, dr, rl⟩
           ⟨q, false, w₁ ++ WStatus.busy t :: w₂, wg, res, log, dr, rl⟩
  | execFinish (t : Task) (out : Outcome) (q : List Task) (f : Bool)
      (w₁ w₂ : List WStatus) (wg : Nat)
      (res : List (String × Outcome)) (log dr : List Task)
      (rl : List (String × Outcome)) :
      ExecOutcome t out →
      Step ⟨q, f, w₁ ++ WStatus.busy t :: w₂, wg, res, log, dr, rl⟩
           ⟨q, f, w₁ ++ WStatus.idle :: w₂, wg,
             insertResult t.getID out res, log ++ [t], dr, rl ++ [(t.getID, out)]⟩

/-- Zero or more steps. -/
def Reachable : SchedState → SchedState → Prop := Relation.ReflTransGen Step

/-- The state right after `Run`'s set-up (Task.go:124-140): queue seeded
with the whole task list and closed, deadline pending, `wc` workers
spawned in the receive loop, WaitGroup at `wc`, results map as the
struct holds it (empty on a first run). -/
def initState (tasks : List Task) (wc : Nat) (res : List (String × Outcome)) : SchedState :=
  { queue := tasks, fired := false, workers := List.replicate wc .idle,
    wg := wc, results := res, execLog := [], dropped := [], recLog := [] }

/-- `Run`'s set-up on a given scheduler struct: `Run` has no state guard,
so this is what any invocation (first or later) does. -/
def TaskScheduler.runInit (s : TaskScheduler) : SchedState :=
  initState s.tasks s.workerCount.toNat s.results

/-- `Run` returns exactly when `wg.Wait()` unblocks (Task.go:142). -/
def canReturn (s : SchedState) : Prop := s.wg = 0

/-- Number of workers that have not yet run their deferred `wg.Done()`. -/
def activeCount : List WStatus → Nat
  | [] => 0
  | WStatus.done :: ws => activeCount ws
  | _ :: ws => activeCount ws + 1

/-- How many invocations of `t.Execute` have been started: finished ones
(in the log) plus in-flight ones (a worker is busy with `t`). -/
def invocations (s : SchedState) (t : Task) : Nat :=
  s.execLog.count t + s.workers.count (WStatus.busy t)

/-- All workers have exited. -/
def allDone (s : SchedState) : Prop := ∀ w ∈ s.workers, w = WStatus.done

/-- The inductive invariant of one `Run`:
* `conserve` — every submitted task occurrence is in exactly one place:
  still queued, in flight, finished, or abandoned after the deadline;
* `resKeys` — the result map's keys are the initial keys plus the ids of
  finished executions;
* `keysNodup` — the map never holds two entries for one key;
* `wgCount` — the WaitGroup counter equals the number of workers that
  have not exited;
* `resFold` — the map is the fold of the recorded writes over the
  initial map;
* `recIds` — writes correspond one-to-one, in order, to finished
  executions. -/
structure Inv (tasks : List Task) (res0 : List (String × Outcome)) (s : SchedState) : Prop where
  conserve : ∀ u, s.queue.count u + s.workers.count (WStatus.busy u)
      + s.execLog.count u + s.dropped.count u = tasks.count u
  resKeys : ∀ k, k ∈ keys s.results ↔ k ∈ keys res0 ∨ k ∈ s.execLog.map Task.getID
  keysNodup : (keys res0).Nodup → (keys s.results).Nodup
  wgCount : s.wg = activeCount s.workers
  resFold : s.results = foldIns res0 s.recLog
  recIds : s.recLog.map Prod.fst = s.execLog.map Task.getID

/-!
## Facts about the two `Execute` embeddings
-/

theorem longExecSteps_eq_none_or_cancelled (id : String) (fired : Nat → Bool) :
    ∀ remaining done, longExecSteps id fired done remaining = none ∨
      ∃ i, done ≤ i ∧ i < done + remaining ∧
        longExecSteps id fired done remaining = some (.longCancelled id i) := by
  intro remaining
  induction remaining with
  | zero => intro done; exact Or.inl rfl
  | succ n ih =>
    intro done
    by_cases h : fired done = true
    · exact Or.inr ⟨done, Nat.le_refl _, by omega, by simp [longExecSteps, h]⟩
    · rcases ih (done + 1) with h' | ⟨i, hi₁, hi₂, h'⟩
      · exact Or.inl (by simp [longExecSteps, h, h'])
      · exact Or.inr ⟨i, by omega, by omega, by simp [longExecSteps, h, h']⟩

theorem simpleExecute_cases (t : SimpleTask) (globalRemMs durationMs : Nat) :
    t.execute globalRemMs durationMs = none ∨
      t.execute globalRemMs durationMs = some (.simpleTimeout t.id) := by
  unfold SimpleTask.execute
  split
  · exact Or.inr rfl
  · split
    · exact Or.inl rfl
    · exact Or.inr rfl

theorem simpleExecute_execOutcome (t : SimpleTask) (globalRemMs durationMs : Nat) :
    ExecOutcome (.simple t) (t.execute globalRemMs durationMs) :=
  simpleExecute_cases t globalRemMs durationMs

theorem longExecute_execOutcome (t : LongRunningTask) (fired : Nat → Bool) :
    ExecOutcome (.long t) (t.execute fired) := by
  rcases longExecSteps_eq_none_or_cancelled t.id fired t.count 0 with h | ⟨i, _, hi, h⟩
  · exact Or.inl h
  · exact Or.inr ⟨i, by omega, h⟩

theorem longExecSteps_cancelled (id : String) (fired : Nat → Bool) :
    ∀ remaining done, (∃ i, done ≤ i ∧ i < done + remaining ∧ fired i = true) →
      ∃ j, done ≤ j ∧ j < done + remaining ∧
        longExecSteps id fired done remaining = some (.longCancelled id j) := by
  intro remaining
  induction remaining with
  | zero =>
    rintro done ⟨i, h1, h2, -⟩
    omega
  | succ n ih =>
    rintro done ⟨i, h1, h2, h3⟩
    by_cases hf : fired done = true
    · exact ⟨done, Nat.le_refl _, by omega, by simp [longExecSteps, hf]⟩
    · have hi : done + 1 ≤ i := by
        rcases Nat.eq_or_lt_of_le h1 with he | hl
        · exact absurd (he ▸ h3) hf
        · omega
      obtain ⟨j, hj1, hj2, hj3⟩ := ih (done + 1) ⟨i, hi, by omega, h3⟩
      exact ⟨j, by omega, by omega, by simp [longExecSteps, hf, hj3]⟩

theorem longExecSteps_success (id : String) (fired : Nat → Bool) :
    ∀ remaining done, (∀ i, done ≤ i → i < done + remaining → fired i = false) →
      longExecSteps id fired done remaining = none := by
  intro remaining
  induction remaining with
  | zero => intro done _; rfl
  | succ n ih =>
    intro done h
    have hf : fired done = false := h done (Nat.le_refl _) (by omega)
    have hrest := ih (done + 1) (fun i h1 h2 => h i (by omega) (by omega))
    simp [longExecSteps, hf, hrest]

/-!
## Facts about the results map
-/

theorem keys_insertResult (k : String) (v : Outcome) (m : List (String × Outcome)) :
    ∀ a, a ∈ keys (insertResult k v m) ↔ a = k ∨ a ∈ keys m := by
  intro a
  induction m with
  | nil => simp [insertResult, keys]
  | cons p rest ih =>
    obtain ⟨k', v'⟩ := p
    by_cases h : k' = k
    · subst h
      simp [insertResult, keys]
    · simp only [insertResult, if_neg h, keys, List.map_cons, List.mem_cons]
      rw [show keys (insertResult k v rest) = List.map Prod.fst (insertResult k v rest) from rfl] at ih
      rw [show keys rest = List.map Prod.fst rest from rfl] at ih
      tauto

theorem nodup_keys_insertResult (k : String) (v : Outcome) (m : List (String × Outcome))
    (h : (keys m).Nodup) : (keys (insertResult k v m)).Nodup := by
  induction m with
  | nil => simp [insertResult, keys]
  | cons p rest ih =>
    obtain ⟨k', v'⟩ := p
    simp only [keys, List.map_cons, List.nodup_cons] at h
    by_cases hk : k' = k
    · subst hk
      simpa [insertResult, keys, List.nodup_cons] using h
    · simp only [insertResult, if_neg hk, keys, List.map_cons, List.nodup_cons]
      refine ⟨fun hmem => ?_, ih h.2⟩
      have := (keys_insertResult k v rest k').mp hmem
      rcases this with h' | h'
      · exact hk h'
      · exact h.1 h'

theorem lookupResult_insertResult_self (k : String) (v : Outcome) (m : List (String × Outcome)) :
    lookupResult k (insertResult k v m) = some v := by
  induction m with
  | nil => simp [insertResult, lookupResult]
  | cons p rest ih =>
    obtain ⟨k', v'⟩ := p
    by_cases h : k' = k
    · subst h; simp [insertResult, lookupResult]
    · simp [insertResult, lookupResult, h, ih]

theorem lookupResult_insertResult_ne (k k' : String) (v : Outcome) (m : List (String × Outcome))
    (h : k' ≠ k) : lookupResult k' (insertResult k v m) = lookupResult k' m := by
  induction m with
  | nil =>
    have hne : ¬ (k = k') := fun h' => h h'.symm
    simp [insertResult, lookupResult, hne]
  | cons p rest ih =>
    obtain ⟨ka, va⟩ := p
    by_cases hk : ka = k
    · subst hk
      have hne : ¬ (ka = k') := fun h' => h h'.symm
      simp [insertResult, lookupResult, hne]
    · by_cases hk' : ka = k'
      · subst hk'
        simp [insertResult, lookupResult, hk]
      · simp [insertResult, lookupResult, hk, hk', ih]

theorem foldIns_append_one (m : List (String × Outcome)) (log : List (String × Outcome))
    (k : String) (v : Outcome) :
    foldIns m (log ++ [(k, v)]) = insertResult k v (foldIns m log) := by
  simp [foldIns, List.foldl_append]

theorem lastWrite_append_one (k : String) (log : List (String × Outcome))
    (k' : String) (v : Outcome) :
    lastWrite k (log ++ [(k', v)]) =
      if k' = k then some v else lastWrite k log := by
  by_cases h : k' = k
  · subst h; simp [lastWrite, List.find?]
  · simp [lastWrite, List.find?, h]

/-- Looking up `k` in the folded map returns the last write to `k` when
one exists, and falls back to the initial map otherwise. -/
theorem lookup_foldIns (k : String) (log : List (String × Outcome)) :
    ∀ m, lookupResult k (foldIns m log) =
      match lastWrite k log with
      | some v => some v
      | none => lookupResult k m := by
  induction log using List.reverseRecOn with
  | nil => intro m; simp [foldIns, lastWrite]
  | append_singleton log p ih =>
    intro m
    obtain ⟨k', v⟩ := p
    rw [foldIns_append_one, lastWrite_append_one]
    by_cases h : k' = k
    · subst h; simp [lookupResult_insertResult_self]
    · rw [lookupResult_insertResult_ne _ _ _ _ (fun h' => h h'.symm), ih m]
      simp [h]

/-- With nodup keys, a present key owns exactly one entry. -/
theorem filter_key_length_of_nodup (k : String) (m : List (String × Outcome))
    (hnd : (keys m).Nodup) (hmem : k ∈ keys m) :
    (m.filter (fun p => p.1 = k)).length = 1 := by
  induction m with
  | nil => simp [keys] at hmem
  | cons p rest ih =>
    obtain ⟨k', v'⟩ := p
    simp only [keys, List.map_cons, List.nodup_cons] at hnd
    by_cases h : k' = k
    · subst h
      have hnone : (rest.filter (fun p => p.1 = k')).length = 0 := by
        rw [List.length_eq_zero, List.filter_eq_nil_iff]
        intro p hp hcontra
        refine hnd.1 ?_
        simp only [decide_eq_true_eq] at hcontra
        exact hcontra ▸ List.mem_map_of_mem Prod.fst hp
      simp only [List.filter_cons, decide_eq_true_eq, if_pos rfl]
      simpa using hnone
    · have hmem' : k ∈ keys rest := by
        simp only [keys, List.map_cons, List.mem_cons] at hmem
        rcases hmem with h' | h'
        · exact absurd h'.symm h
        · exact h'
      have hcond : ¬ ((fun p => decide (p.1 = k)) (k', v') = true) := by simpa using h
      simp only [List.filter_cons, hcond, if_neg]
      exact ih hnd.2 hmem'

/-- Two lists without duplicates and with the same members are
permutations of one another, hence have the same length. -/
theorem length_eq_of_nodup_mem_iff {l₁ l₂ : List String}
    (h₁ : l₁.Nodup) (h₂ : l₂.Nodup) (h : ∀ a, a ∈ l₁ ↔ a ∈ l₂) :
    l₁.length = l₂.length := by
  refine List.Perm.length_eq (List.perm_iff_count.mpr fun a => ?_)
  by_cases hm : a ∈ l₁
  · rw [List.count_eq_one_of_mem h₁ hm, List.count_eq_one_of_mem h₂ ((h a).mp hm)]
  · rw [List.count_eq_zero_of_not_mem hm,
      List.count_eq_zero_of_not_mem (fun hc => hm ((h a).mpr hc))]

/-!
## Counting helpers for the transition system
-/

theorem count_append_cons (u x : WStatus) (w₁ w₂ : List WStatus) :
    (w₁ ++ x :: w₂).count u = w₁.count u + w₂.count u + (if u = x then 1 else 0) := by
  by_cases h : u = x
  · subst h
    simp [List.count_append, List.count_cons]
    omega
  · have h' : ¬ (x = u) := fun he => h he.symm
    simp [List.count_append, List.count_cons, h, h']

theorem count_cons_head (u t : Task) (l : List Task) :
    (t :: l).count u = l.count u + (if u = t then 1 else 0) := by
  by_cases h : u = t
  · subst h
    simp [List.count_cons]
  · have h' : ¬ (t = u) := fun he => h he.symm
    simp [List.count_cons, h, h']

theorem count_append_singleton (u t : Task) (l : List Task) :
    (l ++ [t]).count u = l.count u + (if u = t then 1 else 0) := by
  by_cases h : u = t
  · subst h
    simp [List.count_append, List.count_cons]
  · have h' : ¬ (t = u) := fun he => h he.symm
    simp [List.count_append, List.count_cons, h, h']

theorem activeCount_append (w₁ w₂ : List WStatus) :
    activeCount (w₁ ++ w₂) = activeCount w₁ + activeCount w₂ := by
  induction w₁ with
  | nil => simp [activeCount]
  | cons w ws ih => cases w <;> simp [activeCount, ih] <;> omega

theorem activeCount_append_cons (x : WStatus) (w₁ w₂ : List WStatus) :
    activeCount (w₁ ++ x :: w₂) =
      activeCount w₁ + activeCount w₂ + (if x = WStatus.done then 0 else 1) := by
  rw [activeCount_append]
  cases x <;> simp [activeCount] <;> omega

theorem activeCount_replicate_idle (wc : Nat) :
    activeCount (List.replicate wc WStatus.idle) = wc := by
  induction wc with
  | zero => rfl
  | succ n ih => simp [List.replicate_succ, activeCount, ih]

theorem activeCount_eq_zero {ws : List WStatus} (h : activeCount ws = 0) :
    ∀ w ∈ ws, w = WStatus.done := by
  induction ws with
  | nil => simp
  | cons w rest ih =>
    cases w with
    | done =>
      intro x hx
      rcases List.mem_cons.mp hx with h' | h'
      · exact h'
      · exact ih (by simpa [activeCount] using h) x h'
    | idle => simp [activeCount] at h
    | busy t => simp [activeCount] at h

/-!
## The invariant holds along every run
-/

theorem inv_init (tasks : List Task) (wc : Nat) (res0 : List (String × Outcome)) :
    Inv tasks res0 (initState tasks wc res0) := by
  refine ⟨?_, ?_, ?_, ?_, rfl, rfl⟩
  · intro u
    simp [initState, List.count_replicate]
  · intro k
    simp [initState, keys]
  · intro h
    exact h
  · simp [initState, activeCount_replicate_idle]

theorem step_inv {tasks : List Task} {res0 : List (String × Outcome)}
    {s s' : SchedState} (h : Inv tasks res0 s) (hs : Step s s') : Inv tasks res0 s' := by
  obtain ⟨hcons, hkeys, hnd, hwg, hfold, hrec⟩ := h
  cases hs with
  | fire q ws wg res log dr rl =>
    exact ⟨hcons, hkeys, hnd, hwg, hfold, hrec⟩
  | recvClosed f w₁ w₂ wg res log dr rl =>
    refine ⟨?_, hkeys, hnd, ?_, hfold, hrec⟩
    · intro u
      have hc := hcons u
      simp only at hc ⊢
      rw [count_append_cons] at hc
      rw [count_append_cons]
      rw [if_neg (show ¬ WStatus.busy u = WStatus.idle by simp)] at hc
      rw [if_neg (show ¬ WStatus.busy u = WStatus.done by simp)]
      omega
    · simp only at hwg ⊢
      rw [activeCount_append_cons] at hwg
      rw [activeCount_append_cons]
      rw [if_neg (show ¬ WStatus.idle = WStatus.done by simp)] at hwg
      rw [if_pos rfl]
      omega
  | recvFired t q w₁ w₂ wg res log dr rl =>
    refine ⟨?_, hkeys, hnd, ?_, hfold, hrec⟩
    · intro u
      have hc := hcons u
      simp only at hc ⊢
      rw [count_cons_head, count_append_cons] at hc
      rw [count_append_cons, count_append_singleton]
      rw [if_neg (show ¬ WStatus.busy u = WStatus.idle by simp)] at hc
      rw [if_neg (show ¬ WStatus.busy u = WStatus.done by simp)]
      by_cases htu : u = t
      · rw [if_pos htu] at hc
        rw [if_pos htu]
        omega
      · rw [if_neg htu] at hc
        rw [if_neg htu]
        omega
    · simp only at hwg ⊢
      rw [activeCount_append_cons] at hwg
      rw [activeCount_append_cons]
      rw [if_neg (show ¬ WStatus.idle = WStatus.done by simp)] at hwg
      rw [if_pos rfl]
      omega
  | execStart t q w₁ w₂ wg res log dr rl =>
    refine ⟨?_, hkeys, hnd, ?_, hfold, hrec⟩
    · intro u
      have hc := hcons u
      simp only at hc ⊢
      rw [count_cons_head, count_append_cons] at hc
      rw [count_append_cons]
      rw [if_neg (show ¬ WStatus.busy u = WStatus.idle by simp)] at hc
      simp only [WStatus.busy.injEq]
      by_cases htu : u = t
      · rw [if_pos htu] at hc
        rw [if_pos htu]
        omega
      · rw [if_neg htu] at hc
        rw [if_neg htu]
        omega
    · simp only at hwg ⊢
      rw [activeCount_append_cons] at hwg
      rw [activeCount_append_cons]
      rw [if_neg (show ¬ WStatus.idle = WStatus.done by simp)] at hwg
      rw [if_neg (show ¬ WStatus.busy t = WStatus.done by simp)]
      omega
  | execFinish t out q f w₁ w₂ wg res log dr rl hout =>
    refine ⟨?_, ?_, ?_, ?_, ?_, ?_⟩
    · intro u
      have hc := hcons u
      simp only at hc ⊢
      rw [count_append_cons] at hc
      rw [count_append_cons, count_append_singleton]
      simp only [WStatus.busy.injEq] at hc
      rw [if_neg (show ¬ WStatus.busy u = WStatus.idle by simp)]
      by_cases htu : u = t
      · rw [if_pos htu] at hc
        rw [if_pos htu]
        omega
      · rw [if_neg htu] at hc
        rw [if_neg htu]
        omega
    · intro k
      simp only
      rw [keys_insertResult]
      rw [hkeys k]
      simp only [List.map_append, List.map_cons, List.map_nil, List.mem_append,
        List.mem_cons, List.not_mem_nil, or_false, List.mem_singleton]
      tauto
    · intro hn
      exact nodup_keys_insertResult _ _ _ (hnd hn)
    · simp only at hwg ⊢
      rw [activeCount_append_cons] at hwg
      rw [activeCount_append_cons]
      rw [if_neg (show ¬ WStatus.busy t = WStatus.done by simp)] at hwg
      rw [if_neg (show ¬ WStatus.idle = WStatus.done by simp)]
      omega
    · simp only
      rw [foldIns_append_one, ← hfold]
    · simp only [List.map_append, List.map_cons, List.map_nil]
      rw [hrec]

theorem reachable_inv {tasks : List Task} {wc : Nat} {res0 : List (String × Outcome)}
    {s : SchedState} (h : Reachable (initState tasks wc res0) s) :
    Inv tasks res0 s := by
  induction h with
  | refl => exact inv_init tasks wc res0
  | tail _ hstep ih => exact step_inv ih hstep

/-!
## Claim C2
-/

/-- C2, counterexample: the claim "if the deadline is longer than the
duration, Execute always returns success" fails when the caller's
(global) context has less time remaining than the simulated duration:
here the task's own deadline is 400 ms and the duration 300 ms, yet with
100 ms of global budget remaining `Execute` returns the timeout error,
not `nil`. -/
theorem simple_success_claim_cex :
    (300 : Nat) < 400 ∧
    SimpleTask.execute { id := "s", timeoutMs := 400 } 100 300 ≠ none ∧
    SimpleTask.execute { id := "s", timeoutMs := 400 } 100 300 =
      some (Err.simpleTimeout "s") := by
  refine ⟨by omega, ?_, rfl⟩
  intro h
  simp [SimpleTask.execute] at h

/-- C2 (amended): for a bounded-operation (simple) task, if its own
deadline is shorter than its simulated work duration, `Execute` returns
the timeout outcome whatever the global budget; if its deadline is
longer than the duration AND the global deadline does not fire before
the work completes (`durationMs < globalRemMs`), `Execute` returns
success (`nil`). -/
theorem simple_task_deadline_vs_duration (t : SimpleTask) (globalRemMs durationMs : Nat) :
    (t.timeoutMs < durationMs →
      t.execute globalRemMs durationMs = some (Err.simpleTimeout t.id)) ∧
    (durationMs < t.timeoutMs → durationMs < globalRemMs →
      t.execute globalRemMs durationMs = none) := by
  constructor
  · intro h
    have hlt : min t.timeoutMs globalRemMs < durationMs :=
      lt_of_le_of_lt (min_le_left _ _) h
    simp [SimpleTask.execute, hlt]
  · intro h1 h2
    have hmin : durationMs < min t.timeoutMs globalRemMs := lt_min h1 h2
    have hnot : ¬ (min t.timeoutMs globalRemMs < durationMs) := by omega
    simp [SimpleTask.execute, hnot, hmin]

/-- Witness for `simple_task_deadline_vs_duration` at concrete inputs. -/
theorem simple_task_deadline_vs_duration_witness :
    SimpleTask.execute { id := "a", timeoutMs := 200 } 5000 350 =
      some (Err.simpleTimeout "a") ∧
    SimpleTask.execute { id := "b", timeoutMs := 2000 } 5000 350 = none :=
  ⟨(simple_task_deadline_vs_duration { id := "a", timeoutMs := 200 } 5000 350).1 (by decide),
   (simple_task_deadline_vs_duration { id := "b", timeoutMs := 2000 } 5000 350).2
     (by decide) (by decide)⟩

/-!
## Claim C3
-/

/-- C3: a multi-step task whose cancellation signal fires before one of
its declared steps returns a cancellation outcome whose reported
completed-step count is strictly below the declared total; if the signal
never fires during the declared steps, it returns success after the
final step. -/
theorem long_task_cancellation (t : LongRunningTask) (fired : Nat → Bool) :
    ((∃ i, i < t.count ∧ fired i = true) →
      ∃ j, j < t.count ∧ t.execute fired = some (Err.longCancelled t.id j)) ∧
    ((∀ i, i < t.count → fired i = false) → t.execute fired = none) := by
  constructor
  · rintro ⟨i, hi, hf⟩
    obtain ⟨j, -, hj2, hj3⟩ :=
      longExecSteps_cancelled t.id fired t.count 0 ⟨i, by omega, by omega, hf⟩
    exact ⟨j, by omega, hj3⟩
  · intro h
    exact longExecSteps_success t.id fired t.count 0 (fun i h1 h2 => h i (by omega))

/-- Witness for `long_task_cancellation` at concrete inputs. -/
theorem long_task_cancellation_witness :
    (∃ j, j < 5 ∧
      LongRunningTask.execute { id := "L", count := 5, timeoutMs := 200 }
        (fun i => decide (3 ≤ i)) = some (Err.longCancelled "L" j)) ∧
    LongRunningTask.execute { id := "M", count := 5, timeoutMs := 200 }
      (fun _ => false) = none :=
  ⟨(long_task_cancellation { id := "L", count := 5, timeoutMs := 200 }
      (fun i => decide (3 ≤ i))).1 ⟨3, by decide, by decide⟩,
   (long_task_cancellation { id := "M", count := 5, timeoutMs := 200 }
      (fun _ => false)).2 (fun i _ => rfl)⟩

/-!
## Claim C4
-/

/-- C4, counterexample: which deadline fired is NOT recoverable from the
outcome kind.  Left: a `LongRunningTask` with own budget 1000 ms, 20
steps (2000 ms needed) and 4000 ms of global budget — the task's OWN
operation budget fires, yet the outcome is the cancellation shape, not a
timeout shape as the claim requires.  Right: a `SimpleTask` with own
budget 2000 ms, duration 300 ms and only 100 ms of global budget left —
the GLOBAL budget fires, yet the outcome is the timeout shape, not a
cancellation shape. -/
theorem outcome_kind_claim_cex :
    (LongRunningTask.execute { id := "C", count := 20, timeoutMs := 1000 }
        (LongRunningTask.firedAt { id := "C", count := 20, timeoutMs := 1000 } 4000) =
      some (Err.longCancelled "C" 10) ∧
     Err.kind (Err.longCancelled "C" 10) = ErrKind.cancelled ∧
     ErrKind.cancelled ≠ ErrKind.timeout) ∧
    (SimpleTask.execute { id := "A", timeoutMs := 2000 } 100 300 =
      some (Err.simpleTimeout "A") ∧
     Err.kind (Err.simpleTimeout "A") = ErrKind.timeout ∧
     ErrKind.timeout ≠ ErrKind.cancelled) := by
  refine ⟨⟨?_, rfl, by decide⟩, ⟨?_, rfl, by decide⟩⟩
  · decide
  · decide

/-- C4 (amended): the outcome kind is determined by the task variant,
not by which of the two deadlines fired: every non-nil outcome of a
`SimpleTask` execution is the timeout kind, and every non-nil outcome of
a `LongRunningTask` execution is the cancellation kind, whichever
deadline (own or global) made the combined signal fire.  (The code has
no non-timing failure path, so no third kind ever occurs.) -/
theorem outcome_kind_by_variant (st : SimpleTask) (lt : LongRunningTask)
    (globalRemMs durationMs : Nat) (fired : Nat → Bool) :
    (∀ e, st.execute globalRemMs durationMs = some e → e.kind = ErrKind.timeout) ∧
    (∀ e, lt.execute fired = some e → e.kind = ErrKind.cancelled) := by
  constructor
  · intro e he
    rcases simpleExecute_cases st globalRemMs durationMs with h | h
    · rw [h] at he
      cases he
    · rw [h] at he
      cases he
      rfl
  · intro e he
    rcases longExecSteps_eq_none_or_cancelled lt.id fired lt.count 0 with h | ⟨i, -, -, h⟩
    · rw [LongRunningTask.execute, h] at he
      cases he
    · rw [LongRunningTask.execute, h] at he
      cases he
      rfl

/-- Witness for `outcome_kind_by_variant` at concrete inputs. -/
theorem outcome_kind_by_variant_witness :
    Err.kind (Err.simpleTimeout "A") = ErrKind.timeout ∧
    Err.kind (Err.longCancelled "B" 0) = ErrKind.cancelled :=
  ⟨(outcome_kind_by_variant { id := "A", timeoutMs := 100 } { id := "B", count := 2, timeoutMs := 50 }
      100 300 (fun _ => true)).1 (Err.simpleTimeout "A") (by decide),
   (outcome_kind_by_variant { id := "A", timeoutMs := 100 } { id := "B", count := 2, timeoutMs := 50 }
      100 300 (fun _ => true)).2 (Err.longCancelled "B" 0) (by decide)⟩

/-!
## Positional stability of exited workers
-/

theorem getElem_mid_preserved {w₁ w₂ : List WStatus} {x y : WStatus} {i : Nat}
    (hx : x ≠ WStatus.done)
    (h : (w₁ ++ x :: w₂)[i]? = some WStatus.done) :
    (w₁ ++ y :: w₂)[i]? = some WStatus.done := by
  rcases Nat.lt_trichotomy i w₁.length with hlt | heq | hgt
  · rw [List.getElem?_append_left hlt] at h ⊢
    exact h
  · subst heq
    rw [List.getElem?_append_right (Nat.le_refl _), Nat.sub_self,
      List.getElem?_cons_zero] at h
    exact absurd (Option.some.inj h) hx
  · have hle : w₁.length ≤ i := by omega
    rw [List.getElem?_append_right hle] at h ⊢
    have hidx : i - w₁.length = (i - w₁.length - 1) + 1 := by omega
    rw [hidx] at h ⊢
    rw [List.getElem?_cons_succ] at h ⊢
    exact h

/-!
## Claim C6
-/

/-- C6: `Run` returns exactly when `wg.Wait()` unblocks (`canReturn`), and in
any reachable state satisfying that condition every spawned worker has exited:
no worker is still executing a task — so `Run` never returns while an
execution is in flight merely because the queue is empty — and every started
invocation has finished and is in the finish log (hence recorded). -/
theorem run_returns_after_join (tasks : List Task) (wc : Nat)
    (res0 : List (String × Outcome)) (s : SchedState)
    (hreach : Reachable (initState tasks wc res0) s) (hret : canReturn s) :
    allDone s ∧ ∀ t : Task, s.workers.count (WStatus.busy t) = 0 ∧
      invocations s t = s.execLog.count t := by
  have hwg := (reachable_inv hreach).wgCount
  have h0 : activeCount s.workers = 0 := by
    unfold canReturn at hret
    omega
  have hdone : allDone s := activeCount_eq_zero h0
  refine ⟨hdone, fun t => ?_⟩
  have hbz : s.workers.count (WStatus.busy t) = 0 := by
    rw [List.count_eq_zero]
    intro hmem
    exact absurd (hdone _ hmem) (by simp)
  refine ⟨hbz, ?_⟩
  unfold invocations
  omega

/-- Witness for `run_returns_after_join` on the empty run. -/
theorem run_returns_after_join_witness :
    allDone (initState [] 0 []) :=
  (run_returns_after_join [] 0 [] (initState [] 0 [])
    Relation.ReflTransGen.refl rfl).1

/-!
## Claim C8
-/

/-- C8: no submitted task is executed more than once.  In every reachable
state, the number of `Execute` invocations of a task value — finished ones
plus in-flight ones — is at most its number of occurrences in the submitted
batch; in particular a task submitted once is executed at most once (each
queue element is claimed by exactly one worker). -/
theorem no_double_execution (tasks : List Task) (wc : Nat)
    (res0 : List (String × Outcome)) (s : SchedState)
    (hreach : Reachable (initState tasks wc res0) s) (t : Task) :
    invocations s t ≤ tasks.count t ∧
      (tasks.count t = 1 → invocations s t ≤ 1) := by
  have hc := (reachable_inv hreach).conserve t
  unfold invocations
  constructor
  · omega
  · intro h1
    omega

/-- Witness for `no_double_execution` after one dequeue. -/
theorem no_double_execution_witness :
    invocations ⟨[], false, [WStatus.busy (Task.simple { id := "a", timeoutMs := 500 })],
        1, [], [], [], []⟩
      (Task.simple { id := "a", timeoutMs := 500 }) ≤ 1 :=
  (no_double_execution [Task.simple { id := "a", timeoutMs := 500 }] 1 []
      ⟨[], false, [WStatus.busy (Task.simple { id := "a", timeoutMs := 500 })],
        1, [], [], [], []⟩
      (Relation.ReflTransGen.single
        (Step.execStart (Task.simple { id := "a", timeoutMs := 500 }) [] [] [] 1 [] [] [] []))
      (Task.simple { id := "a", timeoutMs := 500 })).2 (by decide)

/-!
## Claim C5
-/

/-- C5, counterexample: `NewTaskScheduler 0 4000` returns a plain struct with
`workerCount = 0` stored unchanged — there is no `ConfigurationError` (the
constructor has no error result) and no clamping — and `Run` on such a
scheduler with a nonempty batch starts zero workers: its set-up state already
satisfies the return condition with an empty results map.  The scheduler thus
silently runs with zero workers, refuting the claim. -/
theorem zero_workers_claim_cex :
    NewTaskScheduler 0 4000 =
      { tasks := [], results := [], timeoutMs := 4000, workerCount := 0 } ∧
    (NewTaskScheduler 0 4000).workerCount = 0 ∧
    canReturn (TaskScheduler.runInit
      { tasks := [Task.simple { id := "a", timeoutMs := 500 }], results := [],
        timeoutMs := 4000, workerCount := 0 }) ∧
    (TaskScheduler.runInit
      { tasks := [Task.simple { id := "a", timeoutMs := 500 }], results := [],
        timeoutMs := 4000, workerCount := 0 }).results = [] :=
  ⟨rfl, rfl, rfl, rfl⟩

/-- C5 (amended): construction with `workerCount ≤ 0` neither fails nor
clamps: the value is stored unchanged, and a `Run` on a scheduler with that
worker count starts zero workers, already satisfies the return condition at
set-up, and can never execute a task or change the results map. -/
theorem zero_workers_silent_run (wcount : Int) (tmo : Nat) (tasks : List Task)
    (res : List (String × Outcome)) (s : SchedState) (hwc : wcount ≤ 0)
    (hreach : Reachable (initState tasks wcount.toNat res) s) :
    (NewTaskScheduler wcount tmo).workerCount = wcount ∧
    canReturn (initState tasks wcount.toNat res) ∧
    s.execLog = [] ∧ s.results = res ∧ s.workers = [] := by
  have htn : wcount.toNat = 0 := Int.toNat_of_nonpos hwc
  rw [htn] at hreach
  have key : ∀ s', Reachable (initState tasks 0 res) s' →
      s'.workers = [] ∧ s'.execLog = [] ∧ s'.results = res := by
    intro s' h
    induction h with
    | refl => exact ⟨rfl, rfl, rfl⟩
    | tail hr hstep ih =>
      obtain ⟨hw, hl, hres⟩ := ih
      cases hstep with
      | fire q ws wg r log dr rl => exact ⟨hw, hl, hres⟩
      | recvClosed f w₁ w₂ wg r log dr rl => simp at hw
      | recvFired t q w₁ w₂ wg r log dr rl => simp at hw
      | execStart t q w₁ w₂ wg r log dr rl => simp at hw
      | execFinish t out q f w₁ w₂ wg r log dr rl hout => simp at hw
  obtain ⟨hw, hl, hres⟩ := key s hreach
  exact ⟨rfl, by rw [htn]; rfl, hl, hres, hw⟩

/-- Witness for `zero_workers_silent_run` at `workerCount = 0`. -/
theorem zero_workers_silent_run_witness :
    (NewTaskScheduler 0 9999).workerCount = 0 :=
  (zero_workers_silent_run 0 9999 [Task.simple { id := "w", timeoutMs := 1 }] []
    (initState [Task.simple { id := "w", timeoutMs := 1 }] (Int.toNat 0) [])
    (by decide) Relation.ReflTransGen.refl).1

/-!
## Claim C9
-/

/-- C9, counterexample: `Run` has no guard against a second invocation.  A
first run of a one-task scheduler completes — reaches the return condition
with the task executed once — and a second invocation on the resulting struct
(same task list; results map as the first run left it) yields a set-up state
from which that whole execution repeats: the second run again reaches the
return condition with the task freshly executed (nonempty finish log), instead
of failing fast. -/
theorem run_reinvocation_cex :
    (Reachable
      (TaskScheduler.runInit
        { tasks := [Task.simple { id := "a", timeoutMs := 500 }],
          results := [], timeoutMs := 1000, workerCount := 1 })
      ⟨[], false, [WStatus.done], 0, [("a", none)],
        [Task.simple { id := "a", timeoutMs := 500 }], [], [("a", none)]⟩ ∧
     canReturn ⟨[], false, [WStatus.done], 0, [("a", none)],
        [Task.simple { id := "a", timeoutMs := 500 }], [], [("a", none)]⟩) ∧
    (Reachable
      (TaskScheduler.runInit
        { tasks := [Task.simple { id := "a", timeoutMs := 500 }],
          results := [("a", none)], timeoutMs := 1000, workerCount := 1 })
      ⟨[], false, [WStatus.done], 0, [("a", none)],
        [Task.simple { id := "a", timeoutMs := 500 }], [], [("a", none)]⟩ ∧
     (⟨[], false, [WStatus.done], 0, [("a", none)],
        [Task.simple { id := "a", timeoutMs := 500 }], [], [("a", none)]⟩ :
          SchedState).execLog ≠ []) := by
  constructor
  · constructor
    · exact Relation.ReflTransGen.head
        (Step.execStart (Task.simple { id := "a", timeoutMs := 500 }) [] [] [] 1 [] [] [] [])
        (Relation.ReflTransGen.head
          (Step.execFinish (Task.simple { id := "a", timeoutMs := 500 }) none [] false
            [] [] 1 [] [] [] [] (Or.inl rfl))
          (Relation.ReflTransGen.single
            (Step.recvClosed false [] [] 1 [("a", none)]
              [Task.simple { id := "a", timeoutMs := 500 }] [] [("a", none)])))
    · rfl
  · constructor
    · exact Relation.ReflTransGen.head
        (Step.execStart (Task.simple { id := "a", timeoutMs := 500 }) [] [] [] 1
          [("a", none)] [] [] [])
        (Relation.ReflTransGen.head
          (Step.execFinish (Task.simple { id := "a", timeoutMs := 500 }) none [] false
            [] [] 1 [("a", none)] [] [] [] (Or.inl rfl))
          (Relation.ReflTransGen.single
            (Step.recvClosed false [] [] 1 [("a", none)]
              [Task.simple { id := "a", timeoutMs := 500 }] [] [("a", none)])))
    · simp

/-- C9 (amended): `Run` performs no invocation check of any kind: from the
set-up state of any invocation — in particular a repeat invocation whose
results map still holds a previous run's outcomes — a worker immediately
claims the first task of the unchanged batch and begins executing it again;
nothing fails fast. -/
theorem run_no_reinvocation_guard (t : Task) (ts : List Task) (wc : Nat)
    (res : List (String × Outcome)) :
    Step (initState (t :: ts) (wc + 1) res)
      ⟨ts, false, WStatus.busy t :: List.replicate wc WStatus.idle,
        wc + 1, res, [], [], []⟩ :=
  Step.execStart t ts [] (List.replicate wc WStatus.idle) (wc + 1) res [] [] []

/-!
## Claim C10
-/

/-- C10: after the global deadline has fired, a worker that receives a task
abandons it: (1) the receive transition available to an idle worker on a
nonempty queue with the deadline fired moves the task to the abandoned list,
records nothing and makes the worker done; (2) no step taken after the
deadline has fired starts a new `Execute` invocation; (3) an exited worker
stays exited in every later state, so the tasks it would have consumed are
likewise never executed by it; (4) the fired deadline never resets. -/
theorem post_deadline_dequeue_abandons :
    (∀ (t : Task) (q : List Task) (w₁ w₂ : List WStatus) (wg : Nat)
        (res : List (String × Outcome)) (log dr : List Task)
        (rl : List (String × Outcome)),
      Step ⟨t :: q, true, w₁ ++ WStatus.idle :: w₂, wg, res, log, dr, rl⟩
           ⟨q, true, w₁ ++ WStatus.done :: w₂, wg - 1, res, log, dr ++ [t], rl⟩) ∧
    (∀ s s' : SchedState, s.fired = true → Step s s' →
      ∀ u : Task, invocations s' u = invocations s u) ∧
    (∀ (s s' : SchedState) (i : Nat), Step s s' →
      s.workers[i]? = some WStatus.done → s'.workers[i]? = some WStatus.done) ∧
    (∀ s s' : SchedState, Step s s' → s.fired = true → s'.fired = true) := by
  refine ⟨?_, ?_, ?_, ?_⟩
  · intro t q w₁ w₂ wg res log dr rl
    exact Step.recvFired t q w₁ w₂ wg res log dr rl
  · intro s s' hf hstep u
    cases hstep with
    | fire q ws wg res log dr rl => simp at hf
    | recvClosed f w₁ w₂ wg res log dr rl =>
      unfold invocations
      simp only
      rw [count_append_cons, count_append_cons,
        if_neg (show ¬ WStatus.busy u = WStatus.idle by simp),
        if_neg (show ¬ WStatus.busy u = WStatus.done by simp)]
    | recvFired t q w₁ w₂ wg res log dr rl =>
      unfold invocations
      simp only
      rw [count_append_cons, count_append_cons,
        if_neg (show ¬ WStatus.busy u = WStatus.idle by simp),
        if_neg (show ¬ WStatus.busy u = WStatus.done by simp)]
    | execStart t q w₁ w₂ wg res log dr rl => simp at hf
    | execFinish t out q f w₁ w₂ wg res log dr rl hout =>
      unfold invocations
      simp only
      rw [count_append_singleton, count_append_cons, count_append_cons,
        if_neg (show ¬ WStatus.busy u = WStatus.idle by simp)]
      simp only [WStatus.busy.injEq]
      by_cases htu : u = t
      · rw [if_pos htu]
        omega
      · rw [if_neg htu]
        omega
  · intro s s' i hstep hdone
    cases hstep with
    | fire q ws wg res log dr rl => exact hdone
    | recvClosed f w₁ w₂ wg res log dr rl =>
      exact getElem_mid_preserved (by simp) hdone
    | recvFired t q w₁ w₂ wg res log dr rl =>
      exact getElem_mid_preserved (by simp) hdone
    | execStart t q w₁ w₂ wg res log dr rl =>
      exact getElem_mid_preserved (by simp) hdone
    | execFinish t out q f w₁ w₂ wg res log dr rl hout =>
      exact getElem_mid_preserved (by simp) hdone
  · intro s s' hstep hf
    cases hstep with
    | fire q ws wg res log dr rl => rfl
    | recvClosed f w₁ w₂ wg res log dr rl => exact hf
    | recvFired t q w₁ w₂ wg res log dr rl => rfl
    | execStart t q w₁ w₂ wg res log dr rl => simp at hf
    | execFinish t out q f w₁ w₂ wg res log dr rl hout => exact hf

/-- Witness for `post_deadline_dequeue_abandons` on a concrete fired-deadline
receive. -/
theorem post_deadline_dequeue_abandons_witness :
    invocations ⟨[], true, [WStatus.done], 0, [], [],
        [Task.simple { id := "x", timeoutMs := 9 }], []⟩
      (Task.simple { id := "x", timeoutMs := 9 }) =
    invocations ⟨[Task.simple { id := "x", timeoutMs := 9 }], true,
        [WStatus.idle], 1, [], [], [], []⟩
      (Task.simple { id := "x", timeoutMs := 9 }) :=
  post_deadline_dequeue_abandons.2.1
    ⟨[Task.simple { id := "x", timeoutMs := 9 }], true, [WStatus.idle], 1, [], [], [], []⟩
    ⟨[], true, [WStatus.done], 0, [], [], [Task.simple { id := "x", timeoutMs := 9 }], []⟩
    rfl
    (Step.recvFired (Task.simple { id := "x", timeoutMs := 9 }) [] [] [] 1 [] [] [] [])
    (Task.simple { id := "x", timeoutMs := 9 })

/-!
## Claim C1
-/

/-- C1: for a batch of tasks with pairwise-distinct identifiers, if the run
has reached its return condition with the queue drained and no task abandoned
after the deadline (the global budget was generous enough that every task was
dequeued for execution before the deadline fired), then the result set has
exactly `N` entries for `N` submitted tasks, with exactly the submitted
identifiers as keys. -/
theorem scheduler_complete_results (tasks : List Task) (wc : Nat) (s : SchedState)
    (hreach : Reachable (initState tasks wc []) s)
    (hret : canReturn s) (hq : s.queue = []) (hdr : s.dropped = [])
    (hnodup : (tasks.map Task.getID).Nodup) :
    s.results.length = tasks.length ∧
      ∀ k, k ∈ keys s.results ↔ k ∈ tasks.map Task.getID := by
  have hinv := reachable_inv hreach
  have h0 : activeCount s.workers = 0 := by
    have hwg := hinv.wgCount
    unfold canReturn at hret
    omega
  have hdone := activeCount_eq_zero h0
  have hbusy : ∀ u : Task, s.workers.count (WStatus.busy u) = 0 := by
    intro u
    rw [List.count_eq_zero]
    intro hmem
    exact absurd (hdone _ hmem) (by simp)
  have hcnt : ∀ u : Task, s.execLog.count u = tasks.count u := by
    intro u
    have hc := hinv.conserve u
    rw [hq, hdr] at hc
    have hb := hbusy u
    simp only [List.count_nil] at hc
    omega
  have hperm : s.execLog.Perm tasks := List.perm_iff_count.mpr hcnt
  have hpermIds : (s.execLog.map Task.getID).Perm (tasks.map Task.getID) :=
    hperm.map _
  have hkeysIff : ∀ k, k ∈ keys s.results ↔ k ∈ tasks.map Task.getID := by
    intro k
    rw [hinv.resKeys k]
    constructor
    · rintro (h | h)
      · simp [keys] at h
      · exact hpermIds.mem_iff.mp h
    · intro h
      exact Or.inr (hpermIds.mem_iff.mpr h)
  refine ⟨?_, hkeysIff⟩
  have hkND : (keys s.results).Nodup := hinv.keysNodup (by simp [keys])
  have hlen : (keys s.results).length = (tasks.map Task.getID).length :=
    length_eq_of_nodup_mem_iff hkND hnodup hkeysIff
  have hklen : (keys s.results).length = s.results.length := by simp [keys]
  rw [List.length_map] at hlen
  omega

/-- Witness for `scheduler_complete_results` on a complete one-task run. -/
theorem scheduler_complete_results_witness :
    ([(("a" : String), (none : Outcome))].length =
      [Task.simple { id := "a", timeoutMs := 500 }].length) ∧
    ∀ k, k ∈ keys [(("a" : String), (none : Outcome))] ↔
      k ∈ [Task.simple { id := "a", timeoutMs := 500 }].map Task.getID :=
  scheduler_complete_results [Task.simple { id := "a", timeoutMs := 500 }] 1
    ⟨[], false, [WStatus.done], 0, [("a", none)],
      [Task.simple { id := "a", timeoutMs := 500 }], [], [("a", none)]⟩
    (Relation.ReflTransGen.head
      (Step.execStart (Task.simple { id := "a", timeoutMs := 500 }) [] [] [] 1 [] [] [] [])
      (Relation.ReflTransGen.head
        (Step.execFinish (Task.simple { id := "a", timeoutMs := 500 }) none [] false
          [] [] 1 [] [] [] [] (Or.inl rfl))
        (Relation.ReflTransGen.single
          (Step.recvClosed false [] [] 1 [("a", none)]
            [Task.simple { id := "a", timeoutMs := 500 }] [] [("a", none)]))))
    rfl rfl rfl (by decide)

/-!
## Claim C7
-/

/-- C7: when two (or more) finished executions recorded outcomes under the
same identifier — two submitted tasks sharing that identifier, each dequeued
and finished — the result set holds exactly one entry for it, and that entry's
value is the chronologically last recorded write: the later-finishing task
silently overwrote the earlier result. -/
theorem duplicate_id_last_write_wins (tasks : List Task) (wc : Nat) (s : SchedState)
    (hreach : Reachable (initState tasks wc []) s) (k : String)
    (hdup : 2 ≤ (s.recLog.filter (fun p => p.1 = k)).length) :
    (s.results.filter (fun p => p.1 = k)).length = 1 ∧
      lookupResult k s.results = lastWrite k s.recLog := by
  have hinv := reachable_inv hreach
  have hmemLog : k ∈ s.recLog.map Prod.fst := by
    have hpos : 0 < (s.recLog.filter (fun p => p.1 = k)).length := by omega
    obtain ⟨p, hp⟩ := List.exists_mem_of_length_pos hpos
    obtain ⟨hmem, hk⟩ := List.mem_filter.mp hp
    simp only [decide_eq_true_eq] at hk
    exact hk ▸ List.mem_map_of_mem Prod.fst hmem
  have hmemKeys : k ∈ keys s.results := by
    rw [hinv.resKeys k]
    right
    rw [← hinv.recIds]
    exact hmemLog
  have hkND : (keys s.results).Nodup := hinv.keysNodup (by simp [keys])
  refine ⟨filter_key_length_of_nodup k s.results hkND hmemKeys, ?_⟩
  rw [hinv.resFold, lookup_foldIns k s.recLog []]
  cases hlw : lastWrite k s.recLog with
  | none => rfl
  | some v => rfl

/-- Witness for `duplicate_id_last_write_wins` on a run of two tasks sharing
the identifier `"d"`: the first finishes with `nil`, the second with the
timeout error, and the final map holds one entry with the second outcome. -/
theorem duplicate_id_last_write_wins_witness :
    (([(("d" : String), (some (Err.simpleTimeout "d") : Outcome))].filter
        (fun p => p.1 = "d")).length = 1) ∧
      lookupResult "d" [(("d" : String), (some (Err.simpleTimeout "d") : Outcome))] =
        lastWrite "d" [(("d" : String), (none : Outcome)),
          (("d" : String), (some (Err.simpleTimeout "d") : Outcome))] :=
  duplicate_id_last_write_wins
    [Task.simple { id := "d", timeoutMs := 100 }, Task.simple { id := "d", timeoutMs := 200 }]
    1
    ⟨[], false, [WStatus.done], 0, [("d", some (Err.simpleTimeout "d"))],
      [Task.simple { id := "d", timeoutMs := 100 }, Task.simple { id := "d", timeoutMs := 200 }],
      [], [("d", none), ("d", some (Err.simpleTimeout "d"))]⟩
    (Relation.ReflTransGen.head
      (Step.execStart (Task.simple { id := "d", timeoutMs := 100 })
        [Task.simple { id := "d", timeoutMs := 200 }] [] [] 1 [] [] [] [])
      (Relation.ReflTransGen.head
        (Step.execFinish (Task.simple { id := "d", timeoutMs := 100 }) none
          [Task.simple { id := "d", timeoutMs := 200 }] false [] [] 1 [] [] [] []
          (Or.inl rfl))
        (Relation.ReflTransGen.head
          (Step.execStart (Task.simple { id := "d", timeoutMs := 200 }) [] [] [] 1
            [("d", none)] [Task.simple { id := "d", timeoutMs := 100 }] [] [("d", none)])
          (Relation.ReflTransGen.head
            (Step.execFinish (Task.simple { id := "d", timeoutMs := 200 })
              (some (Err.simpleTimeout "d")) [] false [] [] 1
              [("d", none)] [Task.simple { id := "d", timeoutMs := 100 }] [] [("d", none)]
              (Or.inr rfl))
            (Relation.ReflTransGen.single
              (Step.recvClosed false [] [] 1 [("d", some (Err.simpleTimeout "d"))]
                [Task.simple { id := "d", timeoutMs := 100 },
                  Task.simple { id := "d", timeoutMs := 200 }]
                [] [("d", none), ("d", some (Err.simpleTimeout "d"))]))))))
    "d" (by decide)

end TaskSched
